import Mathlib

/-!
# Verification of the justframeit pricing and BOM computation engine

Shallow embedding of the core pricing / bill-of-materials logic of the
justframeit repository (files `price_export_v2.py` and `justframeit.py`),
together with proofs settling the frozen claims about it.

Modelling conventions:
* Python numbers (ints and floats) are modelled as exact rationals `ℚ`;
  `round(x, 2)` and `np.round(x, 2)` are both modelled as decimal rounding
  to two places with ties to even (`round2` below).
* Odoo record fields that may be absent / `None` / `False` are modelled as
  `Option ℚ` (resp. `Option String`, `Option Int`); the pervasive Python
  idiom `record.get(f) or 0` is modelled by `orZero`.
* Python dicts used as read-only lookup tables are modelled as functions
  into `Option`.
* Python's stable `list.sort` / `sorted` is modelled by a stable insertion
  sort (`ssortBy`), which produces the same list: the unique permutation
  that is sorted by the key and keeps elements with equal keys in their
  original order.
-/

set_option linter.unusedVariables false

namespace JustFrameIt

/-- Model of `record.get(field) or 0`: a missing / `None` / `False` / `0` value is 0. -/
def orZero : Option ℚ → ℚ
  | none => 0
  | some q => q

/-- A duck-typed Odoo relational field value as it reaches
`get_service_name` in `price_export_v2.py`: either falsy (`False`/`None`),
a raw string (selection fields), a one-element id list, or an
`(id, label)` pair (many2one fields). -/
inductive SvcField where
  | null : SvcField
  | raw (s : String) : SvcField
  | single (i : Int) : SvcField
  | pair (i : Int) (label : String) : SvcField
deriving DecidableEq, Repr

/-- Embedding of `get_service_name` (price_export_v2.py): extract the service name from
an Odoo field value, handling the tuple/list format.  A falsy value (and
the falsy empty string) yields `""`. -/
def get_service_name : SvcField → String
  | SvcField.null => ""
  | SvcField.raw s => s
  | SvcField.single i => toString i
  | SvcField.pair _ label => label

/-- One record of the `x_services_duration_rules` model, with the fields
fetched by `generate_csv_direct`. -/
structure DurationRule where
  x_associated_service : SvcField
  x_studio_quantity : Option ℚ
  x_duurtijd_totaal : Option ℚ
deriving DecidableEq, Repr

/-- The `(qty, duration)` pair stored for a rule by
`build_duration_lookup`, after the `or 0` coercions. -/
def rulePair (r : DurationRule) : ℚ × ℚ :=
  (orZero r.x_studio_quantity, orZero r.x_duurtijd_totaal)

/-- Stable insertion of `x` into `l`: `x` is placed before the first
element whose key is `≥ key x`, i.e. after every earlier element with an
equal key. -/
def insortBy (key : α → ℚ) (x : α) : List α → List α
  | [] => [x]
  | y :: ys => if key x ≤ key y then x :: y :: ys else y :: insortBy key x ys

/-- Stable sort by a rational key.  Models Python's stable
`list.sort(key=...)` / `sorted(..., key=...)`: the output is sorted by the
key and elements with equal keys keep their original relative order. -/
def ssortBy (key : α → ℚ) : List α → List α
  | [] => []
  | x :: xs => insortBy key x (ssortBy key xs)

/-- The per-service entry of the dictionary built by
`build_duration_lookup`: the `(qty, duration)` rule pairs sorted by
quantity (the code's parallel `quantities` / `durations` arrays are the
two projections of this list), and the tracked fallback. -/
structure ServiceData where
  rules : List (ℚ × ℚ)
  max_qty : ℚ
  max_duration : ℚ
deriving DecidableEq, Repr

/-- The `(max_qty, max_duration)` tracking of `build_duration_lookup`:
starting from the initial entry `{max_qty: 0, max_duration: 0}`, each rule
pair replaces the current pair exactly when its quantity is strictly
greater than the tracked `max_qty`. -/
def maxFold (l : List (ℚ × ℚ)) : ℚ × ℚ :=
  l.foldl (fun b p => if b.1 < p.1 then p else b) (0, 0)

/-- The duration rules whose extracted service name equals
`service_name`, in input order.  This is the grouping of
`build_duration_lookup` and also the `service_rules` filter of
`lookup_service_duration`. -/
def serviceGroup (service_name : String) (duration_rules : List DurationRule) :
    List DurationRule :=
  duration_rules.filter
    (fun r => get_service_name r.x_associated_service = service_name)

/-- The `(qty, duration)` pairs accumulated for one service by
`build_duration_lookup`, in input order. -/
def servicePairs (service_name : String) (duration_rules : List DurationRule) :
    List (ℚ × ℚ) :=
  (serviceGroup service_name duration_rules).map rulePair

/-- Embedding of `build_duration_lookup` (price_export_v2.py), with the produced dict
modelled as a function from service names to optional entries.  A rule
whose service name is falsy (`""`) is skipped; the rules of each service
are collected in input order, sorted stably by quantity, and the rule
with the maximal quantity is tracked (strict improvements over an initial
0) as the fallback.  A name with no contributing rule is not a key of the
dict (`none`). -/
def build_duration_lookup (duration_rules : List DurationRule) :
    String → Option ServiceData :=
  fun service_name =>
    if service_name = "" then none
    else
      let pairs := servicePairs service_name duration_rules
      if pairs = [] then none
      else some ⟨ssortBy Prod.fst pairs, (maxFold pairs).1, (maxFold pairs).2⟩

/-- Embedding of `lookup_service_duration_fast` (price_export_v2.py).  `bisect_left` on
the sorted `quantities` array followed by indexing into `durations` is
modelled by `List.find?` on the sorted rule pairs, which returns the
leftmost pair with quantity `≥ quantity_threshold`; when the search
exhausts, the tracked `max_duration` is returned. -/
def lookup_service_duration_fast (service_name : String)
    (quantity_threshold : ℚ) (duration_lookup : String → Option ServiceData) : ℚ :=
  match duration_lookup service_name with
  | none => 0
  | some service_data =>
    if service_data.rules.isEmpty then 0
    else
      match service_data.rules.find? (fun r => quantity_threshold ≤ r.1) with
      | some r => r.2
      | none => service_data.max_duration

/-- Python's `min(l, key=f)`: the first element attaining the minimal key
(later elements replace the current best only on a strict decrease). -/
def minByFirst (f : α → ℚ) : List α → Option α
  | [] => none
  | x :: xs =>
    match minByFirst f xs with
    | none => some x
    | some m => some (if f m < f x then m else x)

/-- Python's `max(l, key=f)`: the first element attaining the maximal key
(later elements replace the current best only on a strict increase). -/
def maxByFirst (f : α → ℚ) : List α → Option α
  | [] => none
  | x :: xs =>
    match maxByFirst f xs with
    | none => some x
    | some m => some (if f x < f m then m else x)

/-- The `or 0` coerced quantity key used throughout
`lookup_service_duration`. -/
def ruleQty (r : DurationRule) : ℚ := orZero r.x_studio_quantity

/-- Embedding of `lookup_service_duration` (price_export_v2.py): the scalar
(Excel-replicating) lookup.  Filter the rules for the service, take the
rule with minimal quantity among those with quantity `≥ threshold`
(Python's `min` keeps the first minimal element), and fall back to the
rule with maximal quantity (Python's `max` keeps the first maximal
element) when no rule qualifies. -/
def lookup_service_duration (service_name : String)
    (quantity_threshold : ℚ) (duration_rules : List DurationRule) : ℚ :=
  let service_rules := serviceGroup service_name duration_rules
  if service_rules.isEmpty then 0
  else
    let matching_rules := service_rules.filter
      (fun r => quantity_threshold ≤ ruleQty r)
    if matching_rules.isEmpty then
      match maxByFirst ruleQty service_rules with
      | some r => orZero r.x_duurtijd_totaal
      | none => 0
    else
      match minByFirst ruleQty matching_rules with
      | some r => orZero r.x_duurtijd_totaal
      | none => 0

/-- Rounding of `q` to the nearest integer with ties to even, as done by
both Python's `round` and `numpy.rint`. -/
def roundHalfEven (q : ℚ) : ℤ :=
  let f := ⌊q⌋
  let frac := q - f
  if frac < 1 / 2 then f
  else if 1 / 2 < frac then f + 1
  else if f % 2 = 0 then f else f + 1

/-- Model of `round(x, 2)` / `np.round(x, 2)`: decimal rounding to two places. -/
def round2 (q : ℚ) : ℚ := (roundHalfEven (q * 100) : ℚ) / 100

/-- A `product.product` record with the pricing fields consumed by
`compute_price` / `compute_prices_vectorized`. -/
structure Product where
  x_studio_price_computation : SvcField
  standard_price : Option ℚ
  x_studio_associated_service : SvcField
  x_studio_associated_cost_per_employee_per_hour : Option ℚ
deriving DecidableEq, Repr

/-- A dimension tuple
`(width_mm, height_mm, width_cm, height_cm, surface_m2, circumference_m)`. -/
structure Dimension where
  width_mm : ℚ
  height_mm : ℚ
  width_cm : ℚ
  height_cm : ℚ
  surface_m2 : ℚ
  circumference_m : ℚ
deriving DecidableEq, Repr

/-- Embedding of `compute_price` (price_export_v2.py): the scalar price for one product
at one dimension.  `Circumference` products use the circumference both as
cost multiplier and as duration-lookup value; every other computation
method falls into the `else` (Surface) branch. -/
def compute_price (product : Product) (dimension : Dimension)
    (duration_rules : List DurationRule) (margin : ℚ) : ℚ :=
  let price_computation := get_service_name product.x_studio_price_computation
  let standard_price := orZero product.standard_price
  let service_name := get_service_name product.x_studio_associated_service
  let cost_per_hour := orZero product.x_studio_associated_cost_per_employee_per_hour
  let base_cost :=
    if price_computation = "Circumference" then dimension.circumference_m * standard_price
    else dimension.surface_m2 * standard_price
  let dimension_value :=
    if price_computation = "Circumference" then dimension.circumference_m
    else dimension.surface_m2
  let duration_seconds := lookup_service_duration service_name dimension_value duration_rules
  let labor_cost := duration_seconds * cost_per_hour / 3600
  let total_price := (base_cost + labor_cost) * (1 + margin)
  round2 total_price

/-- Embedding of `compute_prices_vectorized` (price_export_v2.py): product-level fields
are extracted once and the per-dimension arithmetic (numpy element-wise
operations, modelled pointwise by `List.map`) uses the pre-built duration
lookup. -/
def compute_prices_vectorized (product : Product) (dimensions : List Dimension)
    (duration_lookup : String → Option ServiceData) (margin : ℚ) : List ℚ :=
  let price_computation := get_service_name product.x_studio_price_computation
  let standard_price := orZero product.standard_price
  let service_name := get_service_name product.x_studio_associated_service
  let cost_per_hour := orZero product.x_studio_associated_cost_per_employee_per_hour
  let is_circumference := price_computation = "Circumference"
  dimensions.map (fun d =>
    let dimension_value := if is_circumference then d.circumference_m else d.surface_m2
    let base_cost := dimension_value * standard_price
    let duration := lookup_service_duration_fast service_name dimension_value duration_lookup
    let labor_cost := duration * cost_per_hour / 3600
    round2 ((base_cost + labor_cost) * (1 + margin)))

/-- The margin derivation in `generate_csv_direct` (price_export_v2.py):
`raw_discount = pricelist.get('x_studio_price_discount') or 0;`
`margin = (raw_discount * -1) / 100`. -/
def pricelist_margin (x_studio_price_discount : Option ℚ) : ℚ :=
  let raw_discount := orZero x_studio_price_discount
  raw_discount * -1 / 100

/-- A requested BOM component as assembled by `process_order_line_parallel`
(justframeit.py): name, catalog reference, and the optional `qty` key that
is present exactly when the original BOM line carried a quantity `≠ 1`
(the code also only reads it when it is `≠ 1`). -/
structure ReqComponent where
  name : String
  reference : String
  qty : Option ℚ
deriving DecidableEq, Repr

/-- A `product.product` component record as batch-fetched in
`create_product_and_bom` (justframeit.py).  `x_studio_price_computation`
is compared directly against the strings `'Circumference'` / `'Surface'`
(a falsy value is `none`); `x_studio_associated_service` is the many2one
id (`component_info['x_studio_associated_service'][0]`). -/
structure CatComponent where
  id : Int
  x_studio_product_code : String
  x_studio_price_computation : Option String
  x_studio_associated_service : Option Int
  x_studio_associated_service_duration_rule : List Int
deriving DecidableEq, Repr

/-- An `x_services` record as batch-fetched in `create_product_and_bom`. -/
structure ServiceRec where
  x_name : String
  x_studio_associated_work_center : Option Int
deriving DecidableEq, Repr

/-- An `x_services_duration_rules` record as batch-read (by id) in
`create_product_and_bom`; the two fields are accessed directly. -/
structure DurRuleRec where
  x_studio_quantity : ℚ
  x_duurtijd_totaal : ℚ
deriving DecidableEq, Repr, Inhabited

/-- A `(0, 0, {...})` BOM line tuple built by `create_product_and_bom`. -/
structure BomLineVal where
  product_id : Int
  product_qty : ℚ
deriving DecidableEq, Repr

/-- A `(0, 0, {...})` BOM operation tuple built by
`create_product_and_bom`.  `time_cycle_manual` is the numeric
`duration_seconds / 60`; the `MM:SS` display string is only logged. -/
structure BomOpVal where
  name : String
  time_cycle_manual : ℚ
  workcenter_id : Option Int
deriving DecidableEq, Repr

/-- An entry of the `skipped_components` list of
`create_product_and_bom`. -/
structure SkippedEntry where
  name : String
  reference : String
  reason : String
deriving DecidableEq, Repr

/-- The pricing-method based quantity of `create_product_and_bom`:
`Circumference → circumference_m`, `Surface → surface_m2`, else `1`. -/
def method_quantity (component_info : CatComponent)
    (surface_m2 circumference_m : ℚ) : ℚ :=
  if component_info.x_studio_price_computation = some "Circumference" then circumference_m
  else if component_info.x_studio_price_computation = some "Surface" then surface_m2
  else 1

/-- The quantity selection of `create_product_and_bom`: an existing BOM
quantity (`'qty' in component and component['qty'] != 1`) is used
verbatim, otherwise the quantity derives from the pricing method. -/
def component_quantity (component : ReqComponent) (component_info : CatComponent)
    (surface_m2 circumference_m : ℚ) : ℚ :=
  match component.qty with
  | some v =>
    if v ≠ 1 then v
    else method_quantity component_info surface_m2 circumference_m
  | none => method_quantity component_info surface_m2 circumference_m

/-- The operation construction of `create_product_and_bom` for one
component: if the component has an associated service whose record and at
least one of whose duration rules were batch-fetched, the rules are sorted
by `x_studio_quantity` (Python's stable `sorted`), the first rule with
quantity `≥` the component's computed quantity is selected
(`next(..., rules_sorted[-1])`, falling back to the last sorted rule), and
one operation with `time_cycle_manual = duration_seconds / 60` is
produced; otherwise the operation is skipped (empty list). -/
def component_operations (component_info : CatComponent)
    (services_by_id : Int → Option ServiceRec)
    (duration_rules_by_id : Int → Option DurRuleRec)
    (quantity : ℚ) : List BomOpVal :=
  match component_info.x_studio_associated_service with
  | none => []
  | some service_id =>
    match services_by_id service_id with
    | none => []
    | some service_info =>
      let duration_rules :=
        component_info.x_studio_associated_service_duration_rule.filterMap
          duration_rules_by_id
      if duration_rules.isEmpty then []
      else
        let rules_sorted := ssortBy (fun r => r.x_studio_quantity) duration_rules
        let matching_rule :=
          (rules_sorted.find? (fun rule => quantity ≤ rule.x_studio_quantity)).getD
            (rules_sorted.getLastD ⟨0, 0⟩)
        let duration_seconds := matching_rule.x_duurtijd_totaal
        let duration_minutes := duration_seconds / 60
        [⟨service_info.x_name, duration_minutes, service_info.x_studio_associated_work_center⟩]

/-- The "Step 5" component loop of `create_product_and_bom`
(justframeit.py): each requested component is looked up in the
batch-fetched `components_by_ref` dict; an absent reference appends a
skipped entry with reason `'Not found in Odoo'` and the loop continues;
a found component contributes one BOM line (with `component_quantity`)
and, via the service handling, at most one operation. -/
def process_components (components : List ReqComponent)
    (components_by_ref : String → Option CatComponent)
    (services_by_id : Int → Option ServiceRec)
    (duration_rules_by_id : Int → Option DurRuleRec)
    (surface_m2 circumference_m : ℚ) :
    List BomLineVal × List BomOpVal × List SkippedEntry :=
  match components with
  | [] => ([], [], [])
  | component :: rest =>
    let tail := process_components rest components_by_ref services_by_id
      duration_rules_by_id surface_m2 circumference_m
    match components_by_ref component.reference with
    | none =>
      (tail.1, tail.2.1,
        ⟨component.name, component.reference, "Not found in Odoo"⟩ :: tail.2.2)
    | some component_info =>
      let quantity := component_quantity component component_info surface_m2 circumference_m
      (⟨component_info.id, quantity⟩ :: tail.1,
        component_operations component_info services_by_id duration_rules_by_id quantity
          ++ tail.2.1,
        tail.2.2)

/-- Python whitespace as stripped by `str.strip()` and matched by the
regex class `\s` (restricted to the ASCII range). -/
def isPyWs (c : Char) : Bool :=
  c = ' ' || c = '\t' || c = '\n' || c = '\r' || c = Char.ofNat 11 || c = Char.ofNat 12

/-- Model of `str.strip()`: remove leading and trailing whitespace. -/
def pyStrip (s : String) : String :=
  String.mk (((s.data.dropWhile isPyWs).reverse.dropWhile isPyWs).reverse)

/-- Does the regex `PR\d{6}` match at the head of the character list?
(`P`, `R`, then at least six decimal digits.) -/
def prMatchAt : List Char → Bool
  | 'P' :: 'R' :: c1 :: c2 :: c3 :: c4 :: c5 :: c6 :: _ =>
    c1.isDigit && c2.isDigit && c3.isDigit && c4.isDigit && c5.isDigit && c6.isDigit
  | _ => false

/-- Model of `re.search(r'PR\d{6}', s)`: the pattern matches at some position. -/
def containsPR : List Char → Bool
  | [] => false
  | c :: rest => prMatchAt (c :: rest) || containsPR rest

/-- Consume the regex fragment `\d+\.?\d*` from the head of the list and
return the remainder; the fragment is deterministic (the optional dot must
be consumed when present, and digit runs are maximal). -/
def matchNum (l : List Char) : Option (List Char) :=
  let digits := l.takeWhile Char.isDigit
  let rest := l.dropWhile Char.isDigit
  if digits.isEmpty then none
  else
    match rest with
    | '.' :: rest2 => some (rest2.dropWhile Char.isDigit)
    | _ => some rest

/-- Does the regex fragment `\s*\(\d+\.?\d*x\d+\.?\d*\)` match a prefix of
the list? -/
def matchTail (l : List Char) : Bool :=
  match l.dropWhile isPyWs with
  | '(' :: r1 =>
    (match matchNum r1 with
     | some ('x' :: r3) =>
       (match matchNum r3 with
        | some (')' :: _) => true
        | _ => false)
     | _ => false)
  | _ => false

/-- Worker for `dimMatch`: try split points in increasing order (the
non-greedy `.+?`), stopping at a newline (which `.` cannot match). -/
def dimMatchAux (acc : List Char) : List Char → Option (List Char)
  | [] => none
  | c :: rest =>
    if c = '\n' then none
    else if matchTail rest then some (acc ++ [c])
    else dimMatchAux (acc ++ [c]) rest

/-- Model of `re.match(r'^(.+?)\s*\(\d+\.?\d*x\d+\.?\d*\)', s)`: the group `(1)` of
the match, i.e. the shortest nonempty newline-free prefix whose remainder
starts with optional whitespace and a `(WxH)` dimension group. -/
def dimMatch (s : List Char) : Option (List Char) := dimMatchAux [] s

/-- Character-level string prefix test: `s.startswith(pre)` in Python
(`str.startswith` compares the leading characters). -/
def startsWithAux : List Char → List Char → Bool
  | _, [] => true
  | [], _ :: _ => false
  | c :: cs, p :: ps => c = p && startsWithAux cs ps

/-- Model of `s.startswith(pre)`. -/
def startsWithPy (s pre : String) : Bool := startsWithAux s.data pre.data

/-- The first recovery step of `process_order_line_parallel`: when the
product's `description_sale` is truthy and starts with `'Original: '`,
the stripped remainder after that 10-character prefix (the slice
`[10:]`); otherwise the falsy `""` (standing for Python's `None`). -/
def recover_step1 (product_description_sale : String) : String :=
  if product_description_sale ≠ "" ∧
      startsWithPy product_description_sale "Original: " = true then
    pyStrip (String.mk (product_description_sale.data.drop 10))
  else ""

/-- The second recovery step of `process_order_line_parallel`: when the
order line description is truthy and matches the dimension pattern, the
stripped group is taken unless it itself contains the generated `PR\d{6}`
pattern; otherwise the falsy `""`. -/
def recover_step2 (order_line_description : String) : String :=
  if order_line_description ≠ "" then
    match dimMatch order_line_description.data with
    | some g =>
      let extracted_name := pyStrip (String.mk g)
      if containsPR extracted_name.data then "" else extracted_name
    | none => ""
  else ""

/-- The "original template name" recovery of `process_order_line_parallel`
(justframeit.py): when the current product name contains the generated
pattern `PR\d{6}`, recover the original name from the product's
`description_sale` (after the `'Original: '` prefix), else from the order
line description by stripping a `(WxH)` dimension suffix (rejected when
the stripped prefix itself contains the generated pattern), else fall back
(with a warning) to the current name.  A blank recovered string is falsy
in Python and falls through to the next step. -/
def recover_original_name (current_product_name product_description_sale
    order_line_description : String) : String :=
  if containsPR current_product_name.data then
    let step1 := recover_step1 product_description_sale
    if step1 ≠ "" then step1
    else
      let step2 := recover_step2 order_line_description
      if step2 ≠ "" then step2 else current_product_name
  else current_product_name

/-- The terminal status of one order line in
`process_order_line_parallel`. -/
inductive LineStatus where
  | skippedPreset (quantity : ℚ) : LineStatus
  | skippedUnupdatable : LineStatus
  | skippedNoBom : LineStatus
  | proceed (original_product_name : String) (bom_id : Int) : LineStatus
deriving DecidableEq, Repr

/-- The inputs of the per-line checks of `process_order_line_parallel`:
the line's recorded quantity, the updatable flag, the variant attribute
values, the two pre-fetched BOM dictionaries (restricted to this line's
product / template key), and the strings feeding the name recovery. -/
structure OrderLineInput where
  product_uom_qty : ℚ
  product_updatable : Bool
  product_template_attribute_value_ids : List Int
  variant_bom : Option Int
  template_bom : Option Int
  display_name : String
  description_sale : String
  order_line_name : String
deriving Repr

/-- The check sequence of `process_order_line_parallel` (justframeit.py)
up to the point where a new product and BOM would be created: a recorded
quantity `≠ 1` skips the line (preset product) before anything else is
examined; an unupdatable product (variant) skips it next; a missing BOM
(variant-specific preferred, then template) skips it; otherwise processing
proceeds with the recovered original name.  Every skip returns
immediately, before any product or BOM creation call. -/
def process_order_line_checks (line : OrderLineInput) : LineStatus :=
  let original_product_name :=
    recover_original_name line.display_name line.description_sale line.order_line_name
  if line.product_uom_qty ≠ 1 then LineStatus.skippedPreset line.product_uom_qty
  else if line.product_updatable = false then LineStatus.skippedUnupdatable
  else
    let is_variant := !line.product_template_attribute_value_ids.isEmpty
    let bom_data := if is_variant then line.variant_bom else none
    match bom_data.orElse (fun _ => line.template_bom) with
    | none => LineStatus.skippedNoBom
    | some bom_id => LineStatus.proceed original_product_name bom_id

/-- The base-36 alphabet of `generate_product_reference`
(justframeit.py): digits `0-9` then uppercase `A-Z`. -/
def BASE36_CHARS : List Char :=
  ['0', '1', '2', '3', '4', '5', '6', '7', '8', '9',
   'A', 'B', 'C', 'D', 'E', 'F', 'G', 'H', 'I', 'J', 'K', 'L', 'M',
   'N', 'O', 'P', 'Q', 'R', 'S', 'T', 'U', 'V', 'W', 'X', 'Y', 'Z']

/-- Indexing `BASE36_CHARS[n]` (the index is always `< 36` in the encoder). -/
def base36Char (n : ℕ) : Char := BASE36_CHARS.getD n '0'

/-- The `while num > 0` encoding loop of `generate_product_reference`:
prepend `BASE36_CHARS[num % 36]` and continue with `num // 36`. -/
def toBase36Go (num : ℕ) (reference : List Char) : List Char :=
  if h : num = 0 then reference
  else toBase36Go (num / 36) (base36Char (num % 36) :: reference)
termination_by num
decreasing_by exact Nat.div_lt_self (Nat.pos_of_ne_zero h) (by norm_num)

/-- Embedding of `generate_product_reference` (justframeit.py), with the two
environment reads made explicit: `timestamp_microseconds` is the
wall-clock reading `int(time.time() * 1000000)` and `counter_value` is the
value of the mutex-protected global counter after its increment.  The
returned reference is the base-36 encoding of their sum (with `0` encoded
as `"0"`). -/
def generate_product_reference (timestamp_microseconds counter_value : ℕ) : String :=
  let timestamp := timestamp_microseconds + counter_value
  if timestamp = 0 then "0"
  else String.mk (toBase36Go timestamp [])

/-- The value of a base-36 digit character (used only to prove the
encoding injective). -/
def base36Val (c : Char) : ℕ :=
  if c.isDigit then c.toNat - 48 else c.toNat - 55

/-- Decode a base-36 character list (used only to prove the encoding
injective). -/
def decodeBase36 (l : List Char) : ℕ :=
  l.foldl (fun a c => a * 36 + base36Val c) 0

/-! ## Lemmas about the stable sort and the first-min / first-max selectors -/

/-- A list is sorted for `key` when the keys are pairwise nondecreasing. -/
def SortedKey (key : α → ℚ) (l : List α) : Prop :=
  l.Pairwise (fun a b => key a ≤ key b)

theorem mem_insortBy (key : α → ℚ) (x a : α) (l : List α) :
    a ∈ insortBy key x l ↔ a = x ∨ a ∈ l := by
  induction l with
  | nil => simp [insortBy]
  | cons y ys ih =>
    by_cases h : key x ≤ key y
    · simp [insortBy, h]
    · simp only [insortBy, if_neg h, List.mem_cons, ih]
      tauto

theorem sortedKey_insortBy (key : α → ℚ) (x : α) (l : List α)
    (h : SortedKey key l) : SortedKey key (insortBy key x l) := by
  induction l with
  | nil => simp [insortBy, SortedKey]
  | cons y ys ih =>
    rw [SortedKey, List.pairwise_cons] at h
    obtain ⟨hy, hys⟩ := h
    by_cases hxy : key x ≤ key y
    · rw [insortBy, if_pos hxy]
      refine List.Pairwise.cons ?_ (List.Pairwise.cons hy hys)
      intro b hb
      rcases List.mem_cons.mp hb with rfl | hb2
      · exact hxy
      · exact le_trans hxy (hy b hb2)
    · rw [insortBy, if_neg hxy]
      refine List.Pairwise.cons ?_ (ih hys)
      intro b hb
      rcases (mem_insortBy key x b ys).mp hb with rfl | hb2
      · exact le_of_lt (not_le.mp hxy)
      · exact hy b hb2

theorem sortedKey_ssortBy (key : α → ℚ) (l : List α) :
    SortedKey key (ssortBy key l) := by
  induction l with
  | nil => simp [ssortBy, SortedKey]
  | cons x xs ih => exact sortedKey_insortBy key x _ ih

theorem length_insortBy (key : α → ℚ) (x : α) (l : List α) :
    (insortBy key x l).length = l.length + 1 := by
  induction l with
  | nil => rfl
  | cons y ys ih =>
    by_cases h : key x ≤ key y
    · simp [insortBy, h]
    · simp [insortBy, h, ih]

theorem length_ssortBy (key : α → ℚ) (l : List α) :
    (ssortBy key l).length = l.length := by
  induction l with
  | nil => rfl
  | cons x xs ih => simp [ssortBy, length_insortBy, ih]

theorem insortBy_eq_takeWhile (key : α → ℚ) (x : α) (l : List α) :
    insortBy key x l =
      l.takeWhile (fun y => decide (key y < key x)) ++
        x :: l.dropWhile (fun y => decide (key y < key x)) := by
  induction l with
  | nil => simp [insortBy]
  | cons y ys ih =>
    by_cases h : key x ≤ key y
    · have h2 : ¬ key y < key x := not_lt.mpr h
      simp [insortBy, h, List.takeWhile_cons, List.dropWhile_cons, h2]
    · have h2 : key y < key x := not_le.mp h
      simp [insortBy, h, List.takeWhile_cons, List.dropWhile_cons, h2, ih]

theorem dropWhile_key_ge (key : α → ℚ) (c : ℚ) (l : List α)
    (h : SortedKey key l) :
    ∀ y ∈ l.dropWhile (fun z => decide (key z < c)), c ≤ key y := by
  induction l with
  | nil => simp
  | cons z zs ih =>
    rw [SortedKey, List.pairwise_cons] at h
    obtain ⟨hz, hzs⟩ := h
    by_cases hzc : key z < c
    · simpa [List.dropWhile_cons, hzc] using ih hzs
    · simp only [List.dropWhile_cons, decide_eq_true_eq, hzc, if_neg]
      intro y hy
      rcases List.mem_cons.mp hy with rfl | hy2
      · exact not_lt.mp hzc
      · exact le_trans (not_lt.mp hzc) (hz y hy2)

theorem minByFirst_eq_none (f : α → ℚ) (l : List α) :
    minByFirst f l = none ↔ l = [] := by
  cases l with
  | nil => simp [minByFirst]
  | cons x xs => cases hx : minByFirst f xs <;> simp [minByFirst, hx]

theorem minByFirst_mem (f : α → ℚ) (l : List α) (m : α)
    (h : minByFirst f l = some m) : m ∈ l := by
  induction l generalizing m with
  | nil => simp [minByFirst] at h
  | cons x xs ih =>
    cases hx : minByFirst f xs with
    | none =>
      rw [minByFirst, hx] at h
      simp at h
      simp [h]
    | some m2 =>
      rw [minByFirst, hx] at h
      simp only [Option.some.injEq] at h
      by_cases hc : f m2 < f x
      · rw [if_pos hc] at h
        exact List.mem_cons_of_mem x (h ▸ ih m2 hx)
      · rw [if_neg hc] at h
        simp [← h]

theorem minByFirst_le (f : α → ℚ) (l : List α) (m : α)
    (h : minByFirst f l = some m) : ∀ y ∈ l, f m ≤ f y := by
  induction l generalizing m with
  | nil => simp [minByFirst] at h
  | cons x xs ih =>
    cases hx : minByFirst f xs with
    | none =>
      have hxs : xs = [] := (minByFirst_eq_none f xs).mp hx
      subst hxs
      rw [minByFirst, hx] at h
      simp at h
      simp [← h]
    | some m2 =>
      rw [minByFirst, hx] at h
      simp only [Option.some.injEq] at h
      intro y hy
      by_cases hc : f m2 < f x
      · rw [if_pos hc] at h
        subst h
        rcases List.mem_cons.mp hy with heq | hy2
        · rw [heq]; exact le_of_lt hc
        · exact ih m2 hx y hy2
      · rw [if_neg hc] at h
        subst h
        rcases List.mem_cons.mp hy with heq | hy2
        · rw [heq]
        · exact le_trans (not_lt.mp hc) (ih m2 hx y hy2)

theorem maxByFirst_eq_none (f : α → ℚ) (l : List α) :
    maxByFirst f l = none ↔ l = [] := by
  cases l with
  | nil => simp [maxByFirst]
  | cons x xs => cases hx : maxByFirst f xs <;> simp [maxByFirst, hx]

theorem maxByFirst_mem (f : α → ℚ) (l : List α) (m : α)
    (h : maxByFirst f l = some m) : m ∈ l := by
  induction l generalizing m with
  | nil => simp [maxByFirst] at h
  | cons x xs ih =>
    cases hx : maxByFirst f xs with
    | none =>
      rw [maxByFirst, hx] at h
      simp at h
      simp [h]
    | some m2 =>
      rw [maxByFirst, hx] at h
      simp only [Option.some.injEq] at h
      by_cases hc : f x < f m2
      · rw [if_pos hc] at h
        exact List.mem_cons_of_mem x (h ▸ ih m2 hx)
      · rw [if_neg hc] at h
        simp [← h]

theorem maxByFirst_ge (f : α → ℚ) (l : List α) (m : α)
    (h : maxByFirst f l = some m) : ∀ y ∈ l, f y ≤ f m := by
  induction l generalizing m with
  | nil => simp [maxByFirst] at h
  | cons x xs ih =>
    cases hx : maxByFirst f xs with
    | none =>
      have hxs : xs = [] := (maxByFirst_eq_none f xs).mp hx
      subst hxs
      rw [maxByFirst, hx] at h
      simp at h
      simp [← h]
    | some m2 =>
      rw [maxByFirst, hx] at h
      simp only [Option.some.injEq] at h
      intro y hy
      by_cases hc : f x < f m2
      · rw [if_pos hc] at h
        subst h
        rcases List.mem_cons.mp hy with heq | hy2
        · rw [heq]; exact le_of_lt hc
        · exact ih m2 hx y hy2
      · rw [if_neg hc] at h
        subst h
        rcases List.mem_cons.mp hy with heq | hy2
        · rw [heq]
        · exact le_trans (ih m2 hx y hy2) (not_lt.mp hc)

/-- The central selection lemma: searching the stable sort for the first
element with key `≥ q` finds exactly the first element (in original
order) whose key is minimal among the qualifying ones — which is what
Python's `min(matching, key=...)` returns. -/
theorem find?_ssortBy (key : α → ℚ) (q : ℚ) (l : List α) :
    (ssortBy key l).find? (fun y => decide (q ≤ key y)) =
      minByFirst key (l.filter (fun y => decide (q ≤ key y))) := by
  induction l with
  | nil => simp [ssortBy, minByFirst]
  | cons x xs ih =>
    rw [ssortBy, insortBy_eq_takeWhile, List.find?_append]
    have hsorted : SortedKey key (ssortBy key xs) := sortedKey_ssortBy key xs
    have hsplit :
        (ssortBy key xs).takeWhile (fun y => decide (key y < key x)) ++
          (ssortBy key xs).dropWhile (fun y => decide (key y < key x)) =
          ssortBy key xs :=
      List.takeWhile_append_dropWhile _ _
    have hss : (ssortBy key xs).find? (fun y => decide (q ≤ key y)) =
        (((ssortBy key xs).takeWhile
            (fun y => decide (key y < key x))).find? (fun y => decide (q ≤ key y))).or
          (((ssortBy key xs).dropWhile
            (fun y => decide (key y < key x))).find? (fun y => decide (q ≤ key y))) := by
      conv_lhs => rw [← hsplit]
      rw [List.find?_append]
    by_cases hPx : q ≤ key x
    · rw [List.filter_cons_of_pos (by simpa using hPx)]
      cases h1 : ((ssortBy key xs).takeWhile
          (fun y => decide (key y < key x))).find? (fun y => decide (q ≤ key y)) with
      | some m =>
        have hm1 : m ∈ (ssortBy key xs).takeWhile (fun y => decide (key y < key x)) :=
          List.mem_of_find?_eq_some h1
        have hmlt : key m < key x := by simpa using List.mem_takeWhile_imp hm1
        have hfs : minByFirst key (xs.filter (fun y => decide (q ≤ key y))) = some m := by
          rw [← ih, hss, h1]
          rfl
        rw [minByFirst, hfs]
        simp [Option.or, hmlt]
      | none =>
        rw [List.find?_cons_of_pos _ (by simpa using hPx)]
        cases h2 : ((ssortBy key xs).dropWhile
            (fun y => decide (key y < key x))).find? (fun y => decide (q ≤ key y)) with
        | none =>
          have hfilter : minByFirst key (xs.filter (fun y => decide (q ≤ key y))) = none := by
            rw [← ih, hss, h1, h2]
            rfl
          rw [minByFirst, hfilter]
          rfl
        | some m =>
          have hm2 : m ∈ (ssortBy key xs).dropWhile (fun y => decide (key y < key x)) :=
            List.mem_of_find?_eq_some h2
          have hxm : key x ≤ key m := dropWhile_key_ge key (key x) _ hsorted m hm2
          have hfilter : minByFirst key (xs.filter (fun y => decide (q ≤ key y))) = some m := by
            rw [← ih, hss, h1, h2]
            rfl
          rw [minByFirst, hfilter]
          simp [Option.or, not_lt.mpr hxm]
    · rw [List.filter_cons_of_neg (by simpa using hPx)]
      have h1 : ((ssortBy key xs).takeWhile
          (fun y => decide (key y < key x))).find? (fun y => decide (q ≤ key y)) = none := by
        rw [List.find?_eq_none]
        intro y hy
        have hlt : key y < key x := by simpa using List.mem_takeWhile_imp hy
        simp only [decide_eq_true_eq]
        exact not_le.mpr (lt_trans hlt (not_le.mp hPx))
      rw [h1, List.find?_cons_of_neg _ (by simpa using hPx), ← ih, hss, h1]

/-- Characterization of the running-max fold of `build_duration_lookup`:
starting from `b`, it returns the first maximal element when that element
strictly beats `b`, and `b` otherwise. -/
theorem foldl_maxPick (l : List (ℚ × ℚ)) : ∀ b : ℚ × ℚ,
    l.foldl (fun b p => if b.1 < p.1 then p else b) b =
      (match maxByFirst Prod.fst l with
       | none => b
       | some m => if b.1 < m.1 then m else b) := by
  induction l with
  | nil => intro b; simp [maxByFirst]
  | cons x xs ih =>
    intro b
    rw [List.foldl_cons, ih]
    cases hx : maxByFirst Prod.fst xs with
    | none =>
      rw [maxByFirst, hx]
    | some m =>
      rw [maxByFirst, hx]
      simp only
      split_ifs <;> first | rfl | (exfalso; linarith)

/-! ## Bridging the indexed (fast) lookup and the scalar lookup -/

theorem filter_map_rulePair (q : ℚ) (l : List DurationRule) :
    (l.map rulePair).filter (fun p => decide (q ≤ p.1)) =
      (l.filter (fun r => decide (q ≤ ruleQty r))).map rulePair := by
  induction l with
  | nil => rfl
  | cons r rs ih =>
    by_cases h : q ≤ ruleQty r
    · rw [List.map_cons, List.filter_cons_of_pos (by simpa [rulePair, ruleQty] using h),
        List.filter_cons_of_pos (by simpa using h), List.map_cons, ih]
    · rw [List.map_cons, List.filter_cons_of_neg (by simpa [rulePair, ruleQty] using h),
        List.filter_cons_of_neg (by simpa using h), ih]

theorem minByFirst_map (g : α → β) (f : β → ℚ) (l : List α) :
    minByFirst f (l.map g) = Option.map g (minByFirst (fun a => f (g a)) l) := by
  induction l with
  | nil => rfl
  | cons r rs ih =>
    rw [List.map_cons, minByFirst, ih, minByFirst]
    cases h : minByFirst (fun a => f (g a)) rs with
    | none => rfl
    | some m =>
      simp only [Option.map_some']
      rw [apply_ite g]

theorem maxByFirst_map (g : α → β) (f : β → ℚ) (l : List α) :
    maxByFirst f (l.map g) = Option.map g (maxByFirst (fun a => f (g a)) l) := by
  induction l with
  | nil => rfl
  | cons r rs ih =>
    rw [List.map_cons, maxByFirst, ih, maxByFirst]
    cases h : maxByFirst (fun a => f (g a)) rs with
    | none => rfl
    | some m =>
      simp only [Option.map_some']
      rw [apply_ite g]

theorem minByFirst_map_rulePair (l : List DurationRule) :
    minByFirst Prod.fst (l.map rulePair) =
      Option.map rulePair (minByFirst ruleQty l) :=
  minByFirst_map rulePair Prod.fst l

theorem maxByFirst_map_rulePair (l : List DurationRule) :
    maxByFirst Prod.fst (l.map rulePair) =
      Option.map rulePair (maxByFirst ruleQty l) :=
  maxByFirst_map rulePair Prod.fst l

/-- The largest quantity among the accumulated rule pairs of a service
(0 when there is none): the claims about the saturating fallback are
stated with it. -/
def maxKeyOf (l : List (ℚ × ℚ)) : ℚ :=
  match maxByFirst Prod.fst l with
  | none => 0
  | some m => m.1

theorem maxFold_of_pos (l : List (ℚ × ℚ)) (m : ℚ × ℚ)
    (hm : maxByFirst Prod.fst l = some m) (hpos : 0 < m.1) :
    maxFold l = m := by
  rw [maxFold, foldl_maxPick, hm]
  simp only
  rw [if_pos hpos]

/-- The bridge: on every query whose service name is nonempty, the indexed
fast lookup agrees with the scalar lookup, provided the degenerate
fallback situation is excluded (no rules, a qualifying rule, or a positive
maximal threshold). -/
theorem fast_eq_scalar (duration_rules : List DurationRule) (s : String) (q : ℚ)
    (hs : s ≠ "")
    (hcond : servicePairs s duration_rules = [] ∨
      (∃ p ∈ servicePairs s duration_rules, q ≤ p.1) ∨
      0 < maxKeyOf (servicePairs s duration_rules)) :
    lookup_service_duration_fast s q (build_duration_lookup duration_rules) =
      lookup_service_duration s q duration_rules := by
  by_cases h0 : servicePairs s duration_rules = []
  · have hg : serviceGroup s duration_rules = [] := by
      have := h0
      rw [servicePairs, List.map_eq_nil_iff] at this
      exact this
    have hb : build_duration_lookup duration_rules s = none := by
      simp [build_duration_lookup, hs, h0]
    simp [lookup_service_duration_fast, hb, lookup_service_duration, hg]
  · have hb : build_duration_lookup duration_rules s =
        some ⟨ssortBy Prod.fst (servicePairs s duration_rules),
          (maxFold (servicePairs s duration_rules)).1,
          (maxFold (servicePairs s duration_rules)).2⟩ := by
      simp [build_duration_lookup, hs, h0]
    have hg : serviceGroup s duration_rules ≠ [] := by
      intro h
      exact h0 (by simp [servicePairs, h])
    have hgE : (serviceGroup s duration_rules).isEmpty = false := by
      cases hE : serviceGroup s duration_rules with
      | nil => exact absurd hE hg
      | cons a as => rfl
    have hne : (ssortBy Prod.fst (servicePairs s duration_rules)).isEmpty = false := by
      cases hE : ssortBy Prod.fst (servicePairs s duration_rules) with
      | nil =>
        exfalso
        have hl := length_ssortBy Prod.fst (servicePairs s duration_rules)
        rw [hE] at hl
        exact h0 (List.length_eq_zero.mp hl.symm)
      | cons a as => rfl
    rw [lookup_service_duration_fast, hb]
    simp only [hne, Bool.false_eq_true, if_false]
    rw [find?_ssortBy]
    have hpairs : servicePairs s duration_rules =
        (serviceGroup s duration_rules).map rulePair := rfl
    rw [hpairs, filter_map_rulePair, minByFirst_map_rulePair]
    cases hm : minByFirst ruleQty
        ((serviceGroup s duration_rules).filter (fun r => decide (q ≤ ruleQty r))) with
    | some r =>
      have hmne : ((serviceGroup s duration_rules).filter
          (fun r => decide (q ≤ ruleQty r))).isEmpty = false := by
        cases hE : (serviceGroup s duration_rules).filter (fun r => decide (q ≤ ruleQty r)) with
        | nil =>
          exfalso
          rw [hE] at hm
          simp [minByFirst] at hm
        | cons a as => rfl
      simp only [Option.map_some']
      rw [lookup_service_duration]
      simp only [hgE, Bool.false_eq_true, if_false, hmne, hm]
      rfl
    | none =>
      have hmE : (serviceGroup s duration_rules).filter
          (fun r => decide (q ≤ ruleQty r)) = [] :=
        (minByFirst_eq_none _ _).mp hm
      rcases hcond with hcond | hcond | hcond
      · exact absurd hcond h0
      · exfalso
        obtain ⟨p, hp, hpq⟩ := hcond
        rw [hpairs] at hp
        obtain ⟨r, hr, hrp⟩ := List.mem_map.mp hp
        have : r ∈ (serviceGroup s duration_rules).filter (fun r => decide (q ≤ ruleQty r)) := by
          rw [List.mem_filter]
          exact ⟨hr, by simpa [ruleQty, ← hrp, rulePair] using hpq⟩
        rw [hmE] at this
        exact absurd this (List.not_mem_nil r)
      · obtain ⟨M, hM⟩ : ∃ M, maxByFirst Prod.fst (servicePairs s duration_rules) = some M := by
          cases hM0 : maxByFirst Prod.fst (servicePairs s duration_rules) with
          | none => exact absurd ((maxByFirst_eq_none _ _).mp hM0) h0
          | some M => exact ⟨M, rfl⟩
        have hpos : 0 < M.1 := by
          rw [maxKeyOf, hM] at hcond
          exact hcond
        have hfold : maxFold (servicePairs s duration_rules) = M :=
          maxFold_of_pos _ M hM hpos
        have hMr : ∃ mr, maxByFirst ruleQty (serviceGroup s duration_rules) = some mr ∧
            rulePair mr = M := by
          have := maxByFirst_map_rulePair (serviceGroup s duration_rules)
          rw [← hpairs, hM] at this
          cases hmr : maxByFirst ruleQty (serviceGroup s duration_rules) with
          | none => rw [hmr] at this; simp at this
          | some mr =>
            rw [hmr] at this
            simp only [Option.map_some'] at this
            exact ⟨mr, rfl, (Option.some.injEq _ _).mp this.symm⟩
        obtain ⟨mr, hmr, hmrM⟩ := hMr
        simp only [Option.map_none']
        rw [lookup_service_duration]
        simp only [hgE, Bool.false_eq_true, if_false, hmE, List.isEmpty_nil, if_true, hmr]
        rw [← hpairs, hfold, ← hmrM]
        rfl

/-- Unfolding of the fast lookup for a nonempty service entry: the result
is the duration of the first minimal qualifying pair when one exists, and
the tracked fallback otherwise. -/
theorem fast_lookup_unfold (duration_rules : List DurationRule) (s : String) (q : ℚ)
    (hs : s ≠ "") (h0 : servicePairs s duration_rules ≠ []) :
    lookup_service_duration_fast s q (build_duration_lookup duration_rules) =
      (match minByFirst Prod.fst ((servicePairs s duration_rules).filter
          (fun p => decide (q ≤ p.1))) with
       | some m => m.2
       | none => (maxFold (servicePairs s duration_rules)).2) := by
  have hb : build_duration_lookup duration_rules s =
      some ⟨ssortBy Prod.fst (servicePairs s duration_rules),
        (maxFold (servicePairs s duration_rules)).1,
        (maxFold (servicePairs s duration_rules)).2⟩ := by
    simp [build_duration_lookup, hs, h0]
  have hne : (ssortBy Prod.fst (servicePairs s duration_rules)).isEmpty = false := by
    cases hE : ssortBy Prod.fst (servicePairs s duration_rules) with
    | nil =>
      exfalso
      have hl := length_ssortBy Prod.fst (servicePairs s duration_rules)
      rw [hE] at hl
      exact h0 (List.length_eq_zero.mp hl.symm)
    | cons a as => rfl
  rw [lookup_service_duration_fast, hb]
  simp only [hne, Bool.false_eq_true, if_false]
  rw [find?_ssortBy]

/-- The fast lookup of a service with no accumulated rules is 0. -/
theorem fast_lookup_of_no_rules (duration_rules : List DurationRule) (s : String)
    (q : ℚ) (h0 : servicePairs s duration_rules = []) :
    lookup_service_duration_fast s q (build_duration_lookup duration_rules) = 0 := by
  by_cases hs : s = ""
  · simp [lookup_service_duration_fast, build_duration_lookup, hs]
  · simp [lookup_service_duration_fast, build_duration_lookup, hs, h0]

/-! ## Claim C1: threshold lookup of the duration index -/

/-- Service "S" with thresholds `[1, 5, 10]` and durations `[10, 20, 30]`
(the concrete example of the claim). -/
def C1exampleRules : List DurationRule :=
  [⟨SvcField.pair 1 "S", some 1, some 10⟩,
   ⟨SvcField.pair 1 "S", some 5, some 20⟩,
   ⟨SvcField.pair 1 "S", some 10, some 30⟩]

/-- A single rule for service "S" whose threshold is 0 (e.g. a rule whose
`x_studio_quantity` is missing and is coerced by `or 0`). -/
def C1zeroRule : DurationRule := ⟨SvcField.pair 1 "S", some 0, some 50⟩

/-- C1, counterexample: for the index built from the single rule
`(threshold 0, duration 50)` of service "S", the query 1 exhausts the
binary search, and the claim says the duration of the rule with the
overall largest threshold (50) is returned; `lookup_service_duration_fast`
returns 0 instead, because the `max_qty`/`max_duration` tracking of
`build_duration_lookup` starts at 0 and only strict improvements are
recorded, so a maximal threshold `≤ 0` never installs its rule as the
fallback. -/
theorem C1_fallback_counterexample :
    servicePairs "S" [C1zeroRule] = [(0, 50)] ∧
    (∀ p ∈ servicePairs "S" [C1zeroRule], p.1 < 1) ∧
    lookup_service_duration_fast "S" 1 (build_duration_lookup [C1zeroRule]) = 0 ∧
    ((0 : ℚ) ≠ 50) := by
  refine ⟨by decide, by decide, ?_, by decide⟩
  decide

/-- C1 (amended): for every duration index built by
`build_duration_lookup` and every query `(s, q)` with a nonempty service
name: (1) if some accumulated rule has threshold `≥ q`, the result is the
duration of a rule with minimal threshold among those with threshold
`≥ q`; (2) if no rule's threshold is `≥ q` and the overall largest
threshold is positive, the result is the duration of a rule with the
overall largest threshold; (3) if no rule's threshold is `≥ q` and the
largest threshold is `≤ 0`, the result is 0 (this is where the original
claim fails); (4) a service with no rules in the index yields 0; and (5)
the concrete example: thresholds `[1,5,10]`, durations `[10,20,30]` give
20 at 3, 10 at 0, and 30 at 100. -/
theorem C1_duration_lookup_amended (duration_rules : List DurationRule)
    (s : String) (q : ℚ) (hs : s ≠ "") :
    ((∃ p ∈ servicePairs s duration_rules, q ≤ p.1) →
      ∃ p ∈ servicePairs s duration_rules, q ≤ p.1 ∧
        (∀ p2 ∈ servicePairs s duration_rules, q ≤ p2.1 → p.1 ≤ p2.1) ∧
        lookup_service_duration_fast s q (build_duration_lookup duration_rules) = p.2) ∧
    ((∀ p ∈ servicePairs s duration_rules, p.1 < q) →
      0 < maxKeyOf (servicePairs s duration_rules) →
      ∃ p ∈ servicePairs s duration_rules,
        (∀ p2 ∈ servicePairs s duration_rules, p2.1 ≤ p.1) ∧
        lookup_service_duration_fast s q (build_duration_lookup duration_rules) = p.2) ∧
    ((∀ p ∈ servicePairs s duration_rules, p.1 < q) →
      maxKeyOf (servicePairs s duration_rules) ≤ 0 →
      lookup_service_duration_fast s q (build_duration_lookup duration_rules) = 0) ∧
    (servicePairs s duration_rules = [] →
      lookup_service_duration_fast s q (build_duration_lookup duration_rules) = 0) ∧
    (lookup_service_duration_fast "S" 3 (build_duration_lookup C1exampleRules) = 20 ∧
     lookup_service_duration_fast "S" 0 (build_duration_lookup C1exampleRules) = 10 ∧
     lookup_service_duration_fast "S" 100 (build_duration_lookup C1exampleRules) = 30) := by
  refine ⟨?_, ?_, ?_, fast_lookup_of_no_rules duration_rules s q, by decide, by decide, by decide⟩
  · intro hex
    obtain ⟨p0, hp0, hq0⟩ := hex
    have h0 : servicePairs s duration_rules ≠ [] := by
      intro h
      rw [h] at hp0
      exact absurd hp0 (List.not_mem_nil p0)
    rw [fast_lookup_unfold duration_rules s q hs h0]
    have hmem : p0 ∈ (servicePairs s duration_rules).filter (fun p => decide (q ≤ p.1)) := by
      rw [List.mem_filter]
      exact ⟨hp0, by simpa using hq0⟩
    cases hm : minByFirst Prod.fst ((servicePairs s duration_rules).filter
        (fun p => decide (q ≤ p.1))) with
    | none =>
      exfalso
      rw [(minByFirst_eq_none _ _).mp hm] at hmem
      exact absurd hmem (List.not_mem_nil p0)
    | some m =>
      have hmmem := minByFirst_mem _ _ _ hm
      rw [List.mem_filter] at hmmem
      refine ⟨m, hmmem.1, by simpa using hmmem.2, ?_, rfl⟩
      intro p2 hp2 hq2
      have hp2f : p2 ∈ (servicePairs s duration_rules).filter (fun p => decide (q ≤ p.1)) := by
        rw [List.mem_filter]
        exact ⟨hp2, by simpa using hq2⟩
      exact minByFirst_le _ _ _ hm p2 hp2f
  · intro hall hmax
    have h0 : servicePairs s duration_rules ≠ [] := by
      intro h
      rw [maxKeyOf, h] at hmax
      simp [maxByFirst] at hmax
    obtain ⟨M, hM⟩ : ∃ M, maxByFirst Prod.fst (servicePairs s duration_rules) = some M := by
      cases hM0 : maxByFirst Prod.fst (servicePairs s duration_rules) with
      | none => exact absurd ((maxByFirst_eq_none _ _).mp hM0) h0
      | some M => exact ⟨M, rfl⟩
    have hpos : 0 < M.1 := by
      rw [maxKeyOf, hM] at hmax
      exact hmax
    have hfE : (servicePairs s duration_rules).filter (fun p => decide (q ≤ p.1)) = [] := by
      rw [List.filter_eq_nil_iff]
      intro p hp
      simpa using not_le.mpr (hall p hp)
    rw [fast_lookup_unfold duration_rules s q hs h0, hfE]
    refine ⟨M, maxByFirst_mem _ _ _ hM, maxByFirst_ge _ _ _ hM, ?_⟩
    simp only [minByFirst]
    rw [maxFold_of_pos _ M hM hpos]
  · intro hall hmax
    by_cases h0 : servicePairs s duration_rules = []
    · exact fast_lookup_of_no_rules duration_rules s q h0
    · have hfE : (servicePairs s duration_rules).filter (fun p => decide (q ≤ p.1)) = [] := by
        rw [List.filter_eq_nil_iff]
        intro p hp
        simpa using not_le.mpr (hall p hp)
      rw [fast_lookup_unfold duration_rules s q hs h0, hfE]
      simp only [minByFirst]
      obtain ⟨M, hM⟩ : ∃ M, maxByFirst Prod.fst (servicePairs s duration_rules) = some M := by
        cases hM0 : maxByFirst Prod.fst (servicePairs s duration_rules) with
        | none => exact absurd ((maxByFirst_eq_none _ _).mp hM0) h0
        | some M => exact ⟨M, rfl⟩
      have hMk : M.1 ≤ 0 := by
        rw [maxKeyOf, hM] at hmax
        exact hmax
      rw [maxFold, foldl_maxPick, hM]
      simp only
      rw [if_neg (by simpa using not_lt.mpr hMk)]

/-- Witness for C1 at a concrete input: the `[1,5,10]` index queried at 3
returns the duration of the minimal qualifying threshold. -/
theorem C1_duration_lookup_witness :
    ∃ p ∈ servicePairs "S" C1exampleRules, (3 : ℚ) ≤ p.1 ∧
      (∀ p2 ∈ servicePairs "S" C1exampleRules, (3 : ℚ) ≤ p2.1 → p.1 ≤ p2.1) ∧
      lookup_service_duration_fast "S" 3 (build_duration_lookup C1exampleRules) = p.2 :=
  (C1_duration_lookup_amended C1exampleRules "S" 3 (by decide)).1 (by decide)

/-! ## Claim C2: vectorized / scalar price equivalence -/

/-- A product with no associated service (`x_studio_associated_service`
falsy, so `get_service_name` yields `""`). -/
def C2product : Product := ⟨SvcField.raw "Surface", some 0, SvcField.null, some 1⟩

/-- A 400mm x 400mm dimension tuple. -/
def C2dimension : Dimension := ⟨400, 400, 40, 40, 16 / 100, 16 / 10⟩

/-- A duration rule whose associated service is also falsy. -/
def C2rules : List DurationRule := [⟨SvcField.null, some 1, some 3600⟩]

/-- C2, counterexample: for a product with no associated service and a
rule set containing a rule with no associated service, the scalar path
matches that rule under the empty service name (`""` == `""`) and prices
in its labor, while `build_duration_lookup` drops the rule (falsy service
names are skipped) so the vectorized path prices 0 labor: pointwise
equality fails. -/
theorem C2_vectorized_counterexample :
    compute_prices_vectorized C2product [C2dimension]
        (build_duration_lookup C2rules) 0 = [0] ∧
    compute_price C2product C2dimension C2rules 0 = 1 ∧
    compute_prices_vectorized C2product [C2dimension]
        (build_duration_lookup C2rules) 0 ≠
      [C2dimension].map (fun d => compute_price C2product d C2rules 0) := by
  have hv : compute_prices_vectorized C2product [C2dimension]
      (build_duration_lookup C2rules) 0 = [0] := by
    simp [compute_prices_vectorized, C2product, C2dimension, C2rules, get_service_name,
      orZero, lookup_service_duration_fast, build_duration_lookup, servicePairs,
      serviceGroup, rulePair, round2, roundHalfEven]
  have hsc : compute_price C2product C2dimension C2rules 0 = 1 := by
    have h1 : lookup_service_duration "" ((4 : ℚ) / 25)
        [⟨SvcField.null, some 1, some 3600⟩] = 3600 := by
      norm_num [lookup_service_duration, serviceGroup, get_service_name, ruleQty,
        orZero, minByFirst, List.filter]
    simp [compute_price, C2product, C2dimension, C2rules, get_service_name, orZero]
    norm_num [h1, round2, roundHalfEven]
  refine ⟨hv, hsc, ?_⟩
  rw [hv, List.map_cons, List.map_nil, hsc]
  norm_num

/-- C2 (amended): the vectorized path is pointwise bit-identical to the
scalar path for every product whose associated service resolves to a
nonempty name, provided the service's rule set is empty or its largest
threshold is positive (the counterexamples force exactly these two
hypotheses: rules with falsy service names, and an all-nonpositive
threshold set in the saturating fallback). -/
theorem C2_vectorized_eq_scalar (product : Product) (dimensions : List Dimension)
    (duration_rules : List DurationRule) (margin : ℚ)
    (hs : get_service_name product.x_studio_associated_service ≠ "")
    (hmax : servicePairs (get_service_name product.x_studio_associated_service)
        duration_rules = [] ∨
      0 < maxKeyOf (servicePairs (get_service_name product.x_studio_associated_service)
        duration_rules)) :
    compute_prices_vectorized product dimensions
        (build_duration_lookup duration_rules) margin =
      dimensions.map (fun d => compute_price product d duration_rules margin) := by
  have hlookup : ∀ dv : ℚ,
      lookup_service_duration_fast (get_service_name product.x_studio_associated_service)
        dv (build_duration_lookup duration_rules) =
      lookup_service_duration (get_service_name product.x_studio_associated_service)
        dv duration_rules := by
    intro dv
    refine fast_eq_scalar duration_rules _ dv hs ?_
    rcases hmax with h | h
    · exact Or.inl h
    · exact Or.inr (Or.inr h)
  simp only [compute_prices_vectorized, compute_price]
  refine List.map_congr_left ?_
  intro d hd
  by_cases hc : get_service_name product.x_studio_price_computation = "Circumference"
  · simp only [hc, if_true, hlookup]
  · simp only [hc, if_false, hlookup]

/-- A product with service "S" (nonempty name), Surface pricing. -/
def C2witnessProduct : Product :=
  ⟨SvcField.raw "Surface", some 10, SvcField.pair 1 "S", some 36⟩

/-- Witness for C2 at a concrete input: vectorized equals scalar on the
`[1,5,10]` rule set for a real product. -/
theorem C2_vectorized_eq_scalar_witness :
    compute_prices_vectorized C2witnessProduct [C2dimension]
        (build_duration_lookup C1exampleRules) (1 / 2) =
      [C2dimension].map (fun d => compute_price C2witnessProduct d C1exampleRules (1 / 2)) :=
  C2_vectorized_eq_scalar C2witnessProduct [C2dimension] C1exampleRules (1 / 2)
    (by decide) (Or.inr (by decide))

/-! ## Claim C4: the scalar price formula -/

/-- A product whose `x_studio_price_computation` is falsy: neither
`"Circumference"` nor `"Surface"`. -/
def C4product : Product := ⟨SvcField.null, some 1, SvcField.null, none⟩

/-- A dimension with `surface_m2 = 2` (so `cost_basis * surface_m2` and
`cost_basis * 1` differ). -/
def C4dimension : Dimension := ⟨0, 0, 0, 0, 2, 9⟩

/-- C4, counterexample: the claim says a pricing method that is neither
Perimeter/Circumference nor Area/Surface yields `base_cost =
cost_basis * 1`; the code has only two branches (`if Circumference ...
else Surface`), so an unknown method falls into the Surface branch and
the price of this product (cost basis 1, surface 2, no labor, margin 0)
is 2, not the 1 the claim predicts. -/
theorem C4_price_formula_counterexample :
    compute_price C4product C4dimension [] 0 = 2 ∧ (2 : ℚ) ≠ 1 := by
  constructor
  · simp [compute_price, C4product, C4dimension, get_service_name, orZero,
      lookup_service_duration, serviceGroup]
    norm_num [round2, roundHalfEven]
  · norm_num

/-- C4 (amended): `compute_price` returns
`round((base_cost + labor_cost) * (1 + margin), 2)` with
`base_cost = cost_basis * circumference_m` when the pricing method is
Circumference and `base_cost = cost_basis * surface_m2` for every other
method (Surface is the default `else` branch — this is the one amendment
forced by the counterexample), `labor_cost = duration_seconds *
cost_per_hour / 3600`, and the duration looked up at the same dimension
value used for `base_cost`. -/
theorem C4_price_formula (product : Product) (dimension : Dimension)
    (duration_rules : List DurationRule) (margin : ℚ) :
    compute_price product dimension duration_rules margin =
      round2 ((orZero product.standard_price *
          (if get_service_name product.x_studio_price_computation = "Circumference"
           then dimension.circumference_m else dimension.surface_m2) +
        lookup_service_duration (get_service_name product.x_studio_associated_service)
          (if get_service_name product.x_studio_price_computation = "Circumference"
           then dimension.circumference_m else dimension.surface_m2) duration_rules *
          orZero product.x_studio_associated_cost_per_employee_per_hour / 3600) *
        (1 + margin)) := by
  rw [compute_price]
  by_cases hc : get_service_name product.x_studio_price_computation = "Circumference" <;>
    simp only [hc, if_true, if_false] <;> ring_nf

/-! ## Claim C5: the margin sign convention -/

/-- C5: the margin used for price computation is `(discount * -1) / 100`
for every stored discount value; in particular a stored discount of −50
yields a 50% markup margin and a stored discount of 0 yields margin 0
(and a falsy stored discount is coerced to 0 first). -/
theorem C5_margin_sign_convention :
    (∀ d : ℚ, pricelist_margin (some d) = d * -1 / 100) ∧
    pricelist_margin (some (-50)) = 1 / 2 ∧
    pricelist_margin (some 0) = 0 ∧
    pricelist_margin none = 0 := by
  refine ⟨fun d => rfl, ?_, ?_, ?_⟩
  · norm_num [pricelist_margin, orZero]
  · norm_num [pricelist_margin, orZero]
  · norm_num [pricelist_margin, orZero]

/-! ## Claim C10: totality on records with missing pricing fields -/

/-- C10: a product whose `standard_price` and cost-per-hour fields are
missing (`None`/`False`, modelled `none`) is treated as having 0 cost:
the scalar price is the defined number 0 (never an error), and the
vectorized path prices every dimension at 0, for every rule set, lookup
and margin — in particular also when its service is unknown. -/
theorem C10_missing_cost_fields (product : Product) (dimension : Dimension)
    (dimensions : List Dimension) (duration_rules : List DurationRule)
    (duration_lookup : String → Option ServiceData) (margin : ℚ)
    (h1 : product.standard_price = none)
    (h2 : product.x_studio_associated_cost_per_employee_per_hour = none) :
    compute_price product dimension duration_rules margin = 0 ∧
    compute_prices_vectorized product dimensions duration_lookup margin =
      dimensions.map (fun _ => 0) := by
  have hr0 : round2 0 = 0 := by norm_num [round2, roundHalfEven]
  constructor
  · rw [compute_price, h1, h2]
    simp [orZero, hr0]
  · rw [compute_prices_vectorized, h1, h2]
    simp [orZero, hr0]

/-- A product record with both cost fields missing. -/
def C10product : Product := ⟨SvcField.raw "Surface", none, SvcField.null, none⟩

/-- Witness for C10: a concrete cost-less product prices to 0 on the
scalar path and to all-0 on the vectorized path. -/
theorem C10_missing_cost_fields_witness :
    compute_price C10product C2dimension [] (1 / 2) = 0 ∧
    compute_prices_vectorized C10product [C2dimension]
        (build_duration_lookup []) (1 / 2) = [C2dimension].map (fun _ => 0) :=
  C10_missing_cost_fields C10product C2dimension [C2dimension] []
    (build_duration_lookup []) (1 / 2) rfl rfl

/-! ## Claim C3: BOM quantity selection -/

/-- A component carrying a recorded BOM quantity override of 2.5. -/
def C3overrideComponent : ReqComponent := ⟨"Glass", "G1", some (5 / 2)⟩

/-- An Area/Surface-priced catalog component. -/
def C3surfaceInfo : CatComponent := ⟨1, "G1", some "Surface", none, []⟩

/-- C3: a recorded quantity override that is present and ≠ 1 is used
verbatim regardless of the pricing method; otherwise the quantity is
`circumference_m` for Perimeter/Circumference, `surface_m2` for
Area/Surface, and 1 for any other method.  The concrete conjunct checks
that an override of 2.5 on a Surface component yields 2.5, not the
dimension's `surface_m2` (= 7 here). -/
theorem C3_quantity_override :
    (∀ (component : ReqComponent) (info : CatComponent) (s c v : ℚ),
      component.qty = some v → v ≠ 1 →
      component_quantity component info s c = v) ∧
    (∀ (component : ReqComponent) (info : CatComponent) (s c : ℚ),
      component.qty = none ∨ component.qty = some 1 →
      component_quantity component info s c =
        (if info.x_studio_price_computation = some "Circumference" then c
         else if info.x_studio_price_computation = some "Surface" then s else 1)) ∧
    (component_quantity C3overrideComponent C3surfaceInfo 7 9 = 5 / 2 ∧ (5 / 2 : ℚ) ≠ 7) := by
  refine ⟨?_, ?_, ?_, by norm_num⟩
  · intro component info s c v hqty hne
    simp [component_quantity, hqty, hne]
  · intro component info s c hqty
    rcases hqty with hqty | hqty
    · simp [component_quantity, hqty, method_quantity]
    · simp [component_quantity, hqty, method_quantity]
  · simp [component_quantity, C3overrideComponent, C3surfaceInfo, method_quantity]
    norm_num

/-- Witness for C3: the override branch applied at the concrete 2.5
override on a Surface component. -/
theorem C3_quantity_override_witness :
    component_quantity C3overrideComponent C3surfaceInfo 7 9 = 5 / 2 :=
  (C3_quantity_override).1 C3overrideComponent C3surfaceInfo 7 9 (5 / 2) rfl (by norm_num)

/-! ## Claim C6: skip-not-fail component resolution -/

theorem process_components_skipped (components : List ReqComponent)
    (components_by_ref : String → Option CatComponent)
    (services_by_id : Int → Option ServiceRec)
    (duration_rules_by_id : Int → Option DurRuleRec)
    (surface_m2 circumference_m : ℚ) :
    (process_components components components_by_ref services_by_id
        duration_rules_by_id surface_m2 circumference_m).2.2 =
      (components.filter (fun c => (components_by_ref c.reference).isNone)).map
        (fun c => ⟨c.name, c.reference, "Not found in Odoo"⟩) := by
  induction components with
  | nil => rfl
  | cons comp rest ih =>
    rw [process_components]
    cases h : components_by_ref comp.reference with
    | none => simp [h, ih, List.filter_cons]
    | some info => simp [h, ih, List.filter_cons]

theorem process_components_lines (components : List ReqComponent)
    (components_by_ref : String → Option CatComponent)
    (services_by_id : Int → Option ServiceRec)
    (duration_rules_by_id : Int → Option DurRuleRec)
    (surface_m2 circumference_m : ℚ) :
    (process_components components components_by_ref services_by_id
        duration_rules_by_id surface_m2 circumference_m).1 =
      components.filterMap (fun c => (components_by_ref c.reference).map
        (fun info => ⟨info.id, component_quantity c info surface_m2 circumference_m⟩)) := by
  induction components with
  | nil => rfl
  | cons comp rest ih =>
    rw [process_components]
    cases h : components_by_ref comp.reference with
    | none => simp [h, ih, List.filterMap_cons]
    | some info => simp [h, ih, List.filterMap_cons]

/-- Three requested components, of which "RB" is unknown to the batch
result. -/
def C6components : List ReqComponent :=
  [⟨"A", "RA", none⟩, ⟨"B", "RB", none⟩, ⟨"C", "RC", none⟩]

/-- A batch result resolving "RA" and "RC" but not "RB". -/
def C6lookup : String → Option CatComponent :=
  fun ref =>
    if ref = "RA" then some ⟨1, "RA", some "Surface", none, []⟩
    else if ref = "RC" then some ⟨3, "RC", none, none, []⟩
    else none

/-- C6: a component whose reference is absent from the batched catalog
result is appended to the skipped list as `{name, reference, "Not found
in Odoo"}` and resolution continues — the skipped list is exactly the
not-found components in order, and the BOM lines are exactly one line per
found component (so nothing is ever aborted); concretely, 3 requested
components with 1 unknown reference yield 2 BOM lines and 1 skipped
entry. -/
theorem C6_skip_dont_fail :
    (∀ (components : List ReqComponent)
       (components_by_ref : String → Option CatComponent)
       (services_by_id : Int → Option ServiceRec)
       (duration_rules_by_id : Int → Option DurRuleRec)
       (surface_m2 circumference_m : ℚ),
      (process_components components components_by_ref services_by_id
          duration_rules_by_id surface_m2 circumference_m).2.2 =
        (components.filter (fun c => (components_by_ref c.reference).isNone)).map
          (fun c => ⟨c.name, c.reference, "Not found in Odoo"⟩) ∧
      (process_components components components_by_ref services_by_id
          duration_rules_by_id surface_m2 circumference_m).1 =
        components.filterMap (fun c => (components_by_ref c.reference).map
          (fun info => ⟨info.id, component_quantity c info surface_m2 circumference_m⟩))) ∧
    (process_components C6components C6lookup (fun _ => none) (fun _ => none) 1 2).1.length = 2 ∧
    (process_components C6components C6lookup (fun _ => none) (fun _ => none) 1 2).2.2.length = 1 ∧
    (process_components C6components C6lookup (fun _ => none) (fun _ => none) 1 2).2.2 =
      [⟨"B", "RB", "Not found in Odoo"⟩] := by
  refine ⟨?_, by decide, by decide, by decide⟩
  intro components components_by_ref services_by_id duration_rules_by_id s c
  exact ⟨process_components_skipped components components_by_ref services_by_id
      duration_rules_by_id s c,
    process_components_lines components components_by_ref services_by_id
      duration_rules_by_id s c⟩

/-! ## Claim C7: order-line re-entrancy checks -/

/-- C7: a recorded line quantity ≠ 1 terminates the line as skipped
(preset product) before the updatability check is even consulted and
before any product or BOM creation; a quantity of 1 on a not-updatable
(variant) product terminates it as skipped (unupdatable), likewise
before any creation. -/
theorem C7_order_line_checks :
    (∀ line : OrderLineInput, line.product_uom_qty ≠ 1 →
      process_order_line_checks line = LineStatus.skippedPreset line.product_uom_qty) ∧
    (∀ line : OrderLineInput, line.product_uom_qty = 1 → line.product_updatable = false →
      process_order_line_checks line = LineStatus.skippedUnupdatable) := by
  constructor
  · intro line h
    simp [process_order_line_checks, h]
  · intro line h1 h2
    simp [process_order_line_checks, h1, h2]

/-- An order line with a preset quantity of 2 on a non-updatable product:
the preset check wins. -/
def C7line : OrderLineInput := ⟨2, false, [], none, none, "PR123456", "", ""⟩

/-- Witness for C7: the preset-quantity skip fires on a concrete line
even though the line's product is also not updatable. -/
theorem C7_order_line_checks_witness :
    process_order_line_checks C7line = LineStatus.skippedPreset 2 :=
  (C7_order_line_checks).1 C7line (by norm_num [C7line])

/-! ## Claim C9: the base-36 reference generator -/

theorem base36Char_mem : ∀ k, k < 36 → base36Char k ∈ BASE36_CHARS := by decide

theorem toBase36Go_chars (n : ℕ) : ∀ acc : List Char,
    (∀ ch ∈ acc, ch ∈ BASE36_CHARS) →
    ∀ ch ∈ toBase36Go n acc, ch ∈ BASE36_CHARS := by
  induction n using Nat.strong_induction_on with
  | _ n ih =>
    intro acc hacc ch hch
    by_cases h : n = 0
    · rw [toBase36Go, dif_pos h] at hch
      exact hacc ch hch
    · rw [toBase36Go, dif_neg h] at hch
      refine ih (n / 36) (Nat.div_lt_self (Nat.pos_of_ne_zero h) (by norm_num))
        (base36Char (n % 36) :: acc) ?_ ch hch
      intro c hc
      rcases List.mem_cons.mp hc with heq | hc2
      · rw [heq]
        exact base36Char_mem (n % 36) (Nat.mod_lt n (by norm_num))
      · exact hacc c hc2

theorem decodeBase36_foldl (l : List Char) : ∀ a : ℕ,
    l.foldl (fun a c => a * 36 + base36Val c) a =
      a * 36 ^ l.length + decodeBase36 l := by
  induction l with
  | nil => intro a; simp [decodeBase36]
  | cons c l ih =>
    intro a
    rw [List.foldl_cons, ih]
    have h2 : decodeBase36 (c :: l) = base36Val c * 36 ^ l.length + decodeBase36 l := by
      rw [decodeBase36, List.foldl_cons]
      have := ih (0 * 36 + base36Val c)
      simpa using this
    rw [h2, List.length_cons]
    ring

theorem base36Val_base36Char : ∀ k, k < 36 → base36Val (base36Char k) = k := by decide

theorem decode_toBase36Go (n : ℕ) : ∀ acc : List Char,
    decodeBase36 (toBase36Go n acc) = n * 36 ^ acc.length + decodeBase36 acc := by
  induction n using Nat.strong_induction_on with
  | _ n ih =>
    intro acc
    by_cases h : n = 0
    · rw [toBase36Go, dif_pos h, h]
      simp
    · rw [toBase36Go, dif_neg h,
        ih (n / 36) (Nat.div_lt_self (Nat.pos_of_ne_zero h) (by norm_num))]
      have hdec : decodeBase36 (base36Char (n % 36) :: acc) =
          (n % 36) * 36 ^ acc.length + decodeBase36 acc := by
        rw [decodeBase36, List.foldl_cons]
        have := decodeBase36_foldl acc (0 * 36 + base36Val (base36Char (n % 36)))
        rw [this, base36Val_base36Char (n % 36) (Nat.mod_lt n (by norm_num))]
        ring
      rw [List.length_cons, hdec]
      have hswap : n / 36 * 36 ^ (acc.length + 1) +
          (n % 36 * 36 ^ acc.length + decodeBase36 acc) =
          (n / 36 * 36 + n % 36) * 36 ^ acc.length + decodeBase36 acc := by
        rw [pow_succ]
        ring
      rw [hswap, Nat.div_add_mod']

theorem decode_generate (t c : ℕ) :
    decodeBase36 (generate_product_reference t c).data = t + c := by
  rw [generate_product_reference]
  by_cases h : t + c = 0
  · rw [if_pos h, h]
    rfl
  · rw [if_neg h]
    show decodeBase36 (toBase36Go (t + c) []) = t + c
    rw [decode_toBase36Go]
    simp [decodeBase36]

/-- C9: every generated product reference is the base-36 encoding (digits
0-9, uppercase A-Z only) of the wall-clock microsecond timestamp plus the
counter value; and for any two calls whose wall-clock readings are
non-decreasing while the (mutex-protected) counter strictly increased,
the encoded values are strictly increasing, so the returned strings are
distinct — which is what makes concurrent in-process calls pairwise
distinct.  (The mutex itself is a concurrency primitive outside the
embedding; it enters as the hypothesis that the second call observed a
strictly larger counter value.) -/
theorem C9_reference_generator :
    (∀ t c : ℕ, ∀ ch ∈ (generate_product_reference t c).data, ch ∈ BASE36_CHARS) ∧
    (∀ t1 c1 t2 c2 : ℕ, t1 ≤ t2 → c1 < c2 →
      t1 + c1 < t2 + c2 ∧
      generate_product_reference t1 c1 ≠ generate_product_reference t2 c2) := by
  constructor
  · intro t c ch hch
    rw [generate_product_reference] at hch
    by_cases h : t + c = 0
    · rw [if_pos h] at hch
      have : ch = '0' := by simpa using hch
      rw [this]
      decide
    · rw [if_neg h] at hch
      exact toBase36Go_chars (t + c) [] (by simp) ch (by simpa using hch)
  · intro t1 c1 t2 c2 ht hc
    refine ⟨by omega, ?_⟩
    intro heq
    have hde := congrArg (fun s => decodeBase36 s.data) heq
    simp only [decode_generate] at hde
    omega

/-- Witness for C9: two calls with equal clock readings and counter
values 1 < 2 produce distinct references. -/
theorem C9_reference_generator_witness :
    (0 : ℕ) ≤ 0 ∧ (1 : ℕ) < 2 ∧
    generate_product_reference 0 1 ≠ generate_product_reference 0 2 :=
  ⟨by decide, by decide, ((C9_reference_generator).2 0 1 0 2 (by decide) (by decide)).2⟩

/-! ## Claim C8: original template name recovery -/

theorem recover_step1_eq_empty (ds : String)
    (h : startsWithPy ds "Original: " = false ∨
      pyStrip (String.mk (ds.data.drop 10)) = "") :
    recover_step1 ds = "" := by
  rcases h with h | h
  · rw [recover_step1, if_neg]
    rintro ⟨h1, h2⟩
    rw [h] at h2
    exact Bool.noConfusion h2
  · by_cases hc : ds ≠ "" ∧ startsWithPy ds "Original: " = true
    · rw [recover_step1, if_pos hc]
      exact h
    · rw [recover_step1, if_neg hc]

theorem recover_step2_eq_empty (ld : String)
    (h : dimMatch ld.data = none ∨ ∀ g, dimMatch ld.data = some g →
      (containsPR (pyStrip (String.mk g)).data = true ∨ pyStrip (String.mk g) = "")) :
    recover_step2 ld = "" := by
  by_cases hld : ld = ""
  · rw [recover_step2, if_neg (by simp [hld])]
  · rw [recover_step2, if_pos hld]
    cases hdm : dimMatch ld.data with
    | none => rfl
    | some g =>
      rcases h with h | h
      · rw [h] at hdm
        exact Option.noConfusion hdm
      · rcases h g hdm with hg | hg
        · simp [hg]
        · simp [hg]

/-- C8: on reprocessing, when the current product name contains the
generated pattern `PR` + 6 digits (the code tests with `re.search`), the
original template name is recovered in priority order: (1) if
`description_sale` starts with `'Original: '` and the stripped remainder
is nonblank, that remainder is the result; (2) otherwise, if the order
line description matches the leading-group + `(WxH)` dimension pattern
and the stripped group neither contains the generated pattern nor is
blank, that group is the result; (3) otherwise the current (generated)
name is kept (the code logs a warning).  A current name not containing
the pattern is used as-is. -/
theorem C8_name_recovery :
    (∀ cur ds ld : String, containsPR cur.data = false →
      recover_original_name cur ds ld = cur) ∧
    (∀ cur ds ld : String, containsPR cur.data = true →
      startsWithPy ds "Original: " = true →
      pyStrip (String.mk (ds.data.drop 10)) ≠ "" →
      recover_original_name cur ds ld = pyStrip (String.mk (ds.data.drop 10))) ∧
    (∀ (cur ds ld : String) (g : List Char), containsPR cur.data = true →
      (startsWithPy ds "Original: " = false ∨
        pyStrip (String.mk (ds.data.drop 10)) = "") →
      dimMatch ld.data = some g →
      containsPR (pyStrip (String.mk g)).data = false →
      pyStrip (String.mk g) ≠ "" →
      recover_original_name cur ds ld = pyStrip (String.mk g)) ∧
    (∀ cur ds ld : String, containsPR cur.data = true →
      (startsWithPy ds "Original: " = false ∨
        pyStrip (String.mk (ds.data.drop 10)) = "") →
      (dimMatch ld.data = none ∨ ∀ g, dimMatch ld.data = some g →
        (containsPR (pyStrip (String.mk g)).data = true ∨ pyStrip (String.mk g) = "")) →
      recover_original_name cur ds ld = cur) := by
  refine ⟨?_, ?_, ?_, ?_⟩
  · intro cur ds ld h
    simp [recover_original_name, h]
  · intro cur ds ld hPR hsw hnz
    have hne : ds ≠ "" := by
      intro h0
      rw [h0] at hsw
      exact absurd hsw (by decide)
    have hs1 : recover_step1 ds = pyStrip (String.mk (ds.data.drop 10)) := by
      rw [recover_step1, if_pos ⟨hne, hsw⟩]
    simp [recover_original_name, hPR, hs1, hnz]
  · intro cur ds ld g hPR hfail hdim hnoPR hnz
    have hld : ld ≠ "" := by
      intro h0
      rw [h0] at hdim
      have hnone : dimMatch ("" : String).data = none := rfl
      rw [hnone] at hdim
      exact Option.noConfusion hdim
    have hs1 := recover_step1_eq_empty ds hfail
    have hs2 : recover_step2 ld = pyStrip (String.mk g) := by
      rw [recover_step2, if_pos hld, hdim]
      simp [hnoPR]
    simp [recover_original_name, hPR, hs1, hs2, hnz]
  · intro cur ds ld hPR hfail hdim2
    have hs1 := recover_step1_eq_empty ds hfail
    have hs2 := recover_step2_eq_empty ld hdim2
    simp [recover_original_name, hPR, hs1, hs2]

/-- Witness for C8: a generated name `PR123456` with description_sale
`"Original: Foo"` recovers `"Foo"`. -/
theorem C8_name_recovery_witness :
    containsPR ("PR123456" : String).data = true ∧
    startsWithPy "Original: Foo" "Original: " = true ∧
    recover_original_name "PR123456" "Original: Foo" "x" =
      pyStrip (String.mk (("Original: Foo" : String).data.drop 10)) :=
  ⟨by decide, by decide,
    (C8_name_recovery).2.1 "PR123456" "Original: Foo" "x" (by decide) (by decide) (by decide)⟩

end JustFrameIt
